import Mathlib

/-!
# Verification of the CrewAI meeting-orchestration core

A shallow embedding, in Lean 4, of the turn-taking scheduler, the
conversation-loop state machine and the event broadcaster of the
`backend/app` package (files `agents/configurable_agent.py`,
`api/meeting_stream.py`, `services/meeting_scheduler.py`), together with
proofs about the embedded definitions.

Conventions of the embedding:
* Python floats are modelled by `ℚ` (the score arithmetic is exact on the
  literals that occur: 0.5, 1.3, 0.7, 1.2, 0.8, 0.6, 0.2).
* Python strings are modelled by `String`; `s.lower()` is `pyLower`
  (character-wise `Char.toLower`) and the `in` substring test is `pyIn`.
* Python dict `.get(key, default)` reads of open configuration
  dictionaries are modelled by `Option` fields plus `Option.getD`.
* `asyncio` sleeps are dropped; the background task and the SSE broadcast
  log are modelled by explicit state (`SysState`) threaded sequentially.
-/

set_option autoImplicit false

unseal Rat.mul Rat.add Rat.sub Rat.inv

namespace CrewAI

/-- Python's `needle in haystack` on strings (contiguous-substring test),
on the character-list representation. -/
def strHasSub (needle haystack : List Char) : Bool :=
  (List.range (haystack.length + 1)).any
    (fun i => decide ((haystack.drop i).take needle.length = needle))

/-- Python's `str.lower()` (character-wise lowering; identity beyond
ASCII letters, which matches CPython on the ASCII config values used). -/
def pyLower (s : String) : String := String.mk (s.data.map Char.toLower)

/-- Python's `needle in haystack` on `String`. -/
def pyIn (needle haystack : String) : Bool := strHasSub needle.data haystack.data

/-- Python's `l[-n:]`: the last `n` elements of a list. -/
def lastN {α : Type} (n : Nat) (l : List α) : List α := l.drop (l.length - n)

/-- Python's two-argument `min` on numbers (first argument on ties). -/
def pyMinQ (a b : ℚ) : ℚ := if a ≤ b then a else b

/-- Python's two-argument `max` on numbers (first argument on ties). -/
def pyMaxQ (a b : ℚ) : ℚ := if b ≤ a then a else b

/-! ## Data model (from `models/agent_config.py`, `models/meeting.py`)

Only the fields the embedded operations read are carried. The open
`behavior_settings` dictionary is represented by the two keys
`should_speak_now` reads (`Option` = key absent). -/

/-- The slice of `AgentConfig` read by the scheduler
(`agents/configurable_agent.py`). -/
structure AgentConfigM where
  id : Int
  name : String
  role : String
  expertise_areas : List String
  /-- `behavior_settings.get("speaking_frequency", "medium")`; `none` models a missing key. -/
  speaking_frequency : Option String
  /-- `behavior_settings.get("initiative_level", "medium")`; `none` models a missing key. -/
  initiative_level : Option String
deriving DecidableEq

/-- The slice of `MeetingParticipant` read by the scheduler. -/
structure ParticipantM where
  speaking_priority : ℚ
deriving DecidableEq

/-- A `ConfigurableAgent` instance: config, optional participant binding,
and the mutable per-session `response_count`. -/
structure ConfigurableAgent where
  config : AgentConfigM
  participant_config : Option ParticipantM
  response_count : Nat
deriving DecidableEq

/-- The slice of the `meeting_rules` dictionary read by
`should_speak_now`; `none` models a missing `max_consecutive_turns` key. -/
structure MeetingRulesM where
  max_consecutive_turns : Option Int
deriving DecidableEq

/-- `ConfigurableAgent.should_speak_now`
(`agents/configurable_agent.py`, lines 229-289), in exact `ℚ` arithmetic.

Steps, in source order: base 0.5; `*= speaking_priority` when a
participant binding exists; speaking-frequency factor; initiative factor;
anti-repetition on the last 3 recent speakers; expertise-relevance factor
(guarded by `if self.config.expertise_areas and current_context:`, i.e.
both truthy); over-speaking guard against
`meeting_rules.get("max_consecutive_turns", 2)`; clamp to `[0, 1]`. -/
def should_speak_now (a : ConfigurableAgent) (current_context : String)
    (recent_speakers : List Int) (meeting_rules : MeetingRulesM) : ℚ :=
  let base0 : ℚ := 1/2
  let base1 : ℚ :=
    match a.participant_config with
    | some p => base0 * p.speaking_priority
    | none => base0
  let frequency := a.config.speaking_frequency.getD "medium"
  let base2 : ℚ :=
    if frequency = "high" then base1 * (13/10)
    else if frequency = "low" then base1 * (7/10)
    else base1
  let initiative := a.config.initiative_level.getD "medium"
  let base3 : ℚ :=
    if initiative = "high" then base2 * (12/10)
    else if initiative = "low" then base2 * (8/10)
    else base2
  let base4 : ℚ :=
    if a.config.id ∈ lastN 3 recent_speakers then base3 * (6/10) else base3
  let base5 : ℚ :=
    if a.config.expertise_areas ≠ [] ∧ current_context ≠ "" then
      let context_lower := pyLower current_context
      let relevant_areas :=
        (a.config.expertise_areas.filter
          (fun area => pyIn (pyLower area) context_lower)).length
      if relevant_areas > 0 then base4 * (1 + relevant_areas * (2/10)) else base4
    else base4
  let max_consecutive := meeting_rules.max_consecutive_turns.getD 2
  let base6 : ℚ :=
    if (a.response_count : Int) > max_consecutive then base5 * (1/2) else base5
  pyMinQ 1 (pyMaxQ 0 base6)

/-! ## C1: the scoring formula of the specification -/

/-- Claim C1's frequency factor: 1.3 for `"high"`, 0.7 for `"low"`,
otherwise (including a missing key) the neutral 1.0. -/
def fFreq (o : Option String) : ℚ :=
  match o with
  | some v => if v = "high" then 13/10 else if v = "low" then 7/10 else 1
  | none => 1

/-- Claim C1's initiative factor: 1.2 for `"high"`, 0.8 for `"low"`,
otherwise the neutral 1.0. -/
def fInit (o : Option String) : ℚ :=
  match o with
  | some v => if v = "high" then 12/10 else if v = "low" then 8/10 else 1
  | none => 1

/-- Claim C1's anti-repetition factor: 0.6 when the persona's id occurs
among the last 3 recent speakers, else 1.0. -/
def fRep (id : Int) (recent_speakers : List Int) : ℚ :=
  if id ∈ lastN 3 recent_speakers then 6/10 else 1

/-- The number `k` of expertise areas whose name, case-insensitively, is
a substring of the context. -/
def expertiseMatches (areas : List String) (c : String) : Nat :=
  (areas.filter (fun area => pyIn (pyLower area) (pyLower c))).length

/-- Claim C1's expertise factor as the claim states it:
`1 + 0.2 * k` with no guard on the context. -/
def fExpClaim (areas : List String) (c : String) : ℚ :=
  1 + (expertiseMatches areas c : ℚ) * (2/10)

/-- The expertise factor as the code computes it: the factor is applied
only when the context string is nonempty (for an empty context the code
skips the expertise step entirely). -/
def fExpAmended (areas : List String) (c : String) : ℚ :=
  if c ≠ "" then 1 + (expertiseMatches areas c : ℚ) * (2/10) else 1

/-- Claim C1's over-speaking factor: 0.5 when `response_count` strictly
exceeds `max_consecutive_turns` (default 2), else 1.0. -/
def fOver (response_count : Nat) (mr : MeetingRulesM) : ℚ :=
  if (response_count : Int) > mr.max_consecutive_turns.getD 2 then 1/2 else 1

/-- The reference value of claim C1, exactly as the claim states it. -/
def specScoreC1 (cfg : AgentConfigM) (p : ℚ) (response_count : Nat)
    (c : String) (rs : List Int) (mr : MeetingRulesM) : ℚ :=
  pyMinQ 1 (pyMaxQ 0 ((1/2) * p * fFreq cfg.speaking_frequency
    * fInit cfg.initiative_level * fRep cfg.id rs
    * fExpClaim cfg.expertise_areas c * fOver response_count mr))

/-- The reference value with the expertise factor guarded by a nonempty
context, which is what the code computes. -/
def specScoreC1Amended (cfg : AgentConfigM) (p : ℚ) (response_count : Nat)
    (c : String) (rs : List Int) (mr : MeetingRulesM) : ℚ :=
  pyMinQ 1 (pyMaxQ 0 ((1/2) * p * fFreq cfg.speaking_frequency
    * fInit cfg.initiative_level * fRep cfg.id rs
    * fExpAmended cfg.expertise_areas c * fOver response_count mr))

section C1Lemmas

private lemma fFreq_eq (o : Option String) :
    fFreq o = if o.getD "medium" = "high" then 13/10
              else if o.getD "medium" = "low" then 7/10 else 1 := by
  cases o <;> simp [fFreq, Option.getD]

private lemma fInit_eq (o : Option String) :
    fInit o = if o.getD "medium" = "high" then 12/10
              else if o.getD "medium" = "low" then 8/10 else 1 := by
  cases o <;> simp [fInit, Option.getD]

private lemma fExpAmended_eq (areas : List String) (c : String) :
    fExpAmended areas c
      = if areas ≠ [] ∧ c ≠ "" then
          (if expertiseMatches areas c > 0 then
             1 + (expertiseMatches areas c : ℚ) * (2/10) else 1)
        else 1 := by
  unfold fExpAmended
  rcases eq_or_ne c "" with hc | hc
  · simp [hc]
  · rcases eq_or_ne areas ([] : List String) with ha | ha
    · subst ha
      simp [expertiseMatches, hc]
    · rw [if_pos hc, if_pos ⟨ha, hc⟩]
      rcases Nat.eq_zero_or_pos (expertiseMatches areas c) with hk | hk
      · rw [hk]
        norm_num
      · rw [if_pos hk]

private lemma clamp_congr {a b : ℚ} (h : a = b) :
    pyMinQ 1 (pyMaxQ 0 a) = pyMinQ 1 (pyMaxQ 0 b) := by rw [h]

end C1Lemmas

set_option maxHeartbeats 2000000 in
/-- **C1 (counterexample).** The claim's reference formula disagrees with
`should_speak_now` when the context string is empty and an expertise-area
name is the empty string: the empty string is (case-insensitively) a
substring of the empty context, so the claim's `f_exp` is `1.2`, but the
code's guard `if self.config.expertise_areas and current_context:` skips
the expertise step for an empty (falsy) context. The code returns `0.5`,
the claim's formula `0.6`. -/
theorem c1_counterexample :
    should_speak_now
      ⟨⟨1, "a", "r", [""], none, none⟩, some ⟨1⟩, 0⟩ "" [] ⟨none⟩
      = 1/2 ∧
    specScoreC1 ⟨1, "a", "r", [""], none, none⟩ 1 0 "" [] ⟨none⟩ = 6/10 ∧
    should_speak_now
      ⟨⟨1, "a", "r", [""], none, none⟩, some ⟨1⟩, 0⟩ "" [] ⟨none⟩
      ≠ specScoreC1 ⟨1, "a", "r", [""], none, none⟩ 1 0 "" [] ⟨none⟩ := by
  refine ⟨by decide, by decide, by decide⟩

set_option maxHeartbeats 2000000 in
/-- **C1 (amended).** For every persona configuration, participant
priority `p`, context `c`, recent-speaker list `rs` and meeting rules
`mr`, `should_speak_now` equals
`clamp₍₀,₁₎ (0.5 * p * f_freq * f_init * f_rep * f_exp * f_over)` with
the factors as claim C1 states them, except that the expertise factor is
applied only when the context string is nonempty (`f_exp = 1` when
`c = ""`, regardless of matches). -/
theorem c1_should_speak_now_eq_formula (cfg : AgentConfigM) (p : ℚ)
    (n : Nat) (c : String) (rs : List Int) (mr : MeetingRulesM) :
    should_speak_now ⟨cfg, some ⟨p⟩, n⟩ c rs mr
      = specScoreC1Amended cfg p n c rs mr := by
  unfold should_speak_now specScoreC1Amended
  apply clamp_congr
  simp only [fFreq_eq, fInit_eq, fExpAmended_eq, fRep, fOver, expertiseMatches]
  split_ifs <;> ring

/-! ## C2: `MeetingAgentManager.calculate_next_speaker`
(`agents/configurable_agent.py`, lines 406-427) -/

/-- The slice of `MeetingAgentManager` that speaker selection reads: the
`agents` dict (`agent_id -> ConfigurableAgent`) as a list in insertion
order — Python dicts preserve insertion order, and both the scoring loop
and `max(speaker_scores.keys(), ...)` iterate in that order. The dict key
is `a.config.id`. -/
structure MeetingAgentManager where
  agents : List ConfigurableAgent
deriving DecidableEq

/-- Python's `max(xs, key=f)` given a first element and the rest:
the current best is replaced only when a later element is strictly
greater, so the FIRST maximal element wins ties. -/
def pyMaxBy {α : Type} (f : α → ℚ) (a : α) : List α → α
  | [] => a
  | b :: rest => if f b > f a then pyMaxBy f b rest else pyMaxBy f a rest

/-- `MeetingAgentManager.calculate_next_speaker`: `None` on an empty
roster, otherwise the roster member maximizing `should_speak_now`
(first-in-insertion-order on ties, per `max` over the dict's keys). -/
def calculate_next_speaker (m : MeetingAgentManager) (current_context : String)
    (recent_speakers : List Int) (meeting_rules : MeetingRulesM) :
    Option ConfigurableAgent :=
  match m.agents with
  | [] => none
  | a :: rest =>
      some (pyMaxBy
        (fun ag => should_speak_now ag current_context recent_speakers meeting_rules)
        a rest)

section C2Lemmas

private lemma pyMaxBy_first_max {α : Type} (f : α → ℚ) :
    ∀ (l : List α) (a : α),
      ∃ l₁ l₂, a :: l = l₁ ++ pyMaxBy f a l :: l₂ ∧
        (∀ b ∈ l₁, f b < f (pyMaxBy f a l)) ∧
        (∀ b ∈ l₂, f b ≤ f (pyMaxBy f a l)) := by
  intro l
  induction l with
  | nil =>
    intro a
    exact ⟨[], [], rfl, by simp, by simp⟩
  | cons b rest ih =>
    intro a
    by_cases h : f b > f a
    · rw [show pyMaxBy f a (b :: rest) = pyMaxBy f b rest by
        simp [pyMaxBy, h]]
      obtain ⟨l₁, l₂, heq, hlt, hle⟩ := ih b
      have hbr : f b ≤ f (pyMaxBy f b rest) := by
        cases l₁ with
        | nil =>
          have hb : b = pyMaxBy f b rest := by
            simpa using congrArg (fun t => t.head?) heq
          exact le_of_eq (congrArg f hb)
        | cons c l₁' =>
          have hbc : b = c := by
            simpa using congrArg (fun t => t.head?) heq
          have := hlt c (by simp)
          rw [← hbc] at this
          exact le_of_lt this
      refine ⟨a :: l₁, l₂, ?_, ?_, hle⟩
      · simpa using congrArg (List.cons a) heq
      · intro x hx
        rcases List.mem_cons.mp hx with hx | hx
        · exact hx ▸ lt_of_lt_of_le h hbr
        · exact hlt x hx
    · rw [show pyMaxBy f a (b :: rest) = pyMaxBy f a rest by
        simp [pyMaxBy, h]]
      obtain ⟨l₁, l₂, heq, hlt, hle⟩ := ih a
      cases l₁ with
      | nil =>
        have ha : a = pyMaxBy f a rest := by
          simpa using congrArg (fun t => t.head?) heq
        have hrest : rest = l₂ := by
          simpa using congrArg (fun t => t.tail) heq
        refine ⟨[], b :: rest, by simp [← ha], by simp, ?_⟩
        intro x hx
        rcases List.mem_cons.mp hx with hx | hx
        · subst hx
          exact le_of_not_lt h |>.trans (le_of_eq (congrArg f ha))
        · exact hle x (hrest ▸ hx)
      | cons c l₁' =>
        have hac : a = c := by
          simpa using congrArg (fun t => t.head?) heq
        have hrest : rest = l₁' ++ pyMaxBy f a rest :: l₂ := by
          simpa using congrArg (fun t => t.tail) heq
        have halt : f a < f (pyMaxBy f a rest) := by
          have := hlt c (by simp)
          rw [← hac] at this
          exact this
        refine ⟨a :: b :: l₁', l₂, ?_, ?_, hle⟩
        · exact congrArg (fun t => a :: b :: t) hrest
        · intro x hx
          rcases List.mem_cons.mp hx with hx | hx
          · exact hx ▸ halt
          · rcases List.mem_cons.mp hx with hx | hx
            · exact hx ▸ lt_of_le_of_lt (le_of_not_lt h) halt
            · have hxl : x ∈ c :: l₁' := by
                rw [← hac]
                simp [hx]
              exact hlt x hxl

end C2Lemmas

/-- A neutral-configuration agent used in the C2 counterexample; only the
persona id varies. -/
def agtC2 (i : Int) : ConfigurableAgent :=
  ⟨⟨i, "a", "r", [], none, none⟩, some ⟨1⟩, 0⟩

/-- A roster in which the agent with id 5 was inserted before the
equal-scoring agent with id 3. -/
def mgrC2 : MeetingAgentManager := ⟨[agtC2 5, agtC2 3]⟩

/-- **C2 (counterexample).** Ties are NOT broken by lowest persona id:
with two equal-scoring agents of ids 5 and 3, inserted in that order,
`calculate_next_speaker` returns the agent with id 5 (Python's `max`
keeps the first maximal key in dict-insertion order), while the claim
demands the agent with id 3. -/
theorem c2_counterexample :
    should_speak_now (agtC2 5) "" [] ⟨none⟩
      = should_speak_now (agtC2 3) "" [] ⟨none⟩ ∧
    (agtC2 3).config.id < (agtC2 5).config.id ∧
    calculate_next_speaker mgrC2 "" [] ⟨none⟩ = some (agtC2 5) ∧
    calculate_next_speaker mgrC2 "" [] ⟨none⟩ ≠ some (agtC2 3) := by
  refine ⟨by decide, by decide, by decide, by decide⟩

/-- **C2 (amended).** `calculate_next_speaker` returns `None` iff the
roster is empty; otherwise it returns a roster member of maximal
`should_speak_now` score, ties broken by EARLIEST insertion order into
the roster (every strictly earlier member scores strictly lower, every
later member scores no higher). -/
theorem c2_calculate_next_speaker_first_max (m : MeetingAgentManager)
    (ctx : String) (recent : List Int) (rules : MeetingRulesM) :
    (calculate_next_speaker m ctx recent rules = none ↔ m.agents = []) ∧
    (∀ ag, calculate_next_speaker m ctx recent rules = some ag →
      ∃ l₁ l₂, m.agents = l₁ ++ ag :: l₂ ∧
        (∀ b ∈ l₁, should_speak_now b ctx recent rules
            < should_speak_now ag ctx recent rules) ∧
        (∀ b ∈ l₂, should_speak_now b ctx recent rules
            ≤ should_speak_now ag ctx recent rules)) := by
  rcases m with ⟨agents⟩
  cases agents with
  | nil =>
    refine ⟨by simp [calculate_next_speaker], ?_⟩
    intro ag hag
    simp [calculate_next_speaker] at hag
  | cons a rest =>
    refine ⟨by simp [calculate_next_speaker], ?_⟩
    intro ag hag
    have : ag = pyMaxBy
        (fun x => should_speak_now x ctx recent rules) a rest := by
      simpa [calculate_next_speaker] using hag.symm
    subst this
    exact pyMaxBy_first_max _ rest a

/-- Witness for C2 at the concrete roster `mgrC2`: the theorem applied to
`mgrC2` yields the first-maximizer decomposition for the returned agent
(id 5, inserted first). -/
theorem c2_witness :
    ∃ l₁ l₂, mgrC2.agents = l₁ ++ (agtC2 5) :: l₂ ∧
      (∀ b ∈ l₁, should_speak_now b "" [] ⟨none⟩
          < should_speak_now (agtC2 5) "" [] ⟨none⟩) ∧
      (∀ b ∈ l₂, should_speak_now b "" [] ⟨none⟩
          ≤ should_speak_now (agtC2 5) "" [] ⟨none⟩) :=
  (c2_calculate_next_speaker_first_max mgrC2 "" [] ⟨none⟩).2 (agtC2 5) (by decide)

/-! ## The conversation-loop model (`api/meeting_stream.py`)

The module-level mutable state of `meeting_stream.py` (`active_conversations`,
the SSE broadcast fan-out, the message table and its id sequence, and the
set of scheduled background tasks) is modelled by `SysState`; the SSE
broadcast log is a single ordered event list. `BackgroundTasks.add_task`
schedules one more loop; nothing in the module ever cancels a scheduled
task, so `loops` only decreases when a task finishes. -/

/-- The SSE events emitted by the conversation loop (the fields the
claims speak about; every real event also carries a timestamp). -/
inductive StreamEvent
  | conversationReset (meeting : Nat)
  | roundStarted (meeting round totalRounds : Nat)
  | messageStart (meeting msgId : Nat) (agentId : Int)
  | messageTyping (meeting msgId : Nat) (agentId : Int)
      (partialContent : String) (totalLength currentPosition : Nat)
  | messageComplete (meeting msgId : Nat) (agentId : Int) (finalContent : String)
  | conversationEnded (meeting : Nat)
deriving DecidableEq

/-- A persisted `MeetingMessage` row (the fields the loop reads/writes). -/
structure StoredMessage where
  id : Nat
  meeting_id : Nat
  agent_id : Int
  message_content : String
deriving DecidableEq

/-- The per-character loop of `broadcast_typewriter_message`
(lines 754-774): `accumulated_content` grows by one character per
iteration and each iteration broadcasts a `message_typing` event carrying
the accumulated prefix, the total length, and the 1-based position. -/
def typingEvents (m msgId : Nat) (aid : Int) (total : Nat) :
    List Char → Nat → List Char → List StreamEvent
  | _, _, [] => []
  | acc, pos, c :: cs =>
      .messageTyping m msgId aid (String.mk (acc ++ [c])) total (pos + 1)
        :: typingEvents m msgId aid total (acc ++ [c]) (pos + 1) cs

/-- `broadcast_typewriter_message` (lines 732-786): `message_start`,
then one `message_typing` per character, then `message_complete` with the
full text. -/
def broadcast_typewriter_message (m msgId : Nat) (aid : Int)
    (content : String) : List StreamEvent :=
  .messageStart m msgId aid
    :: (typingEvents m msgId aid content.data.length [] 0 content.data
        ++ [.messageComplete m msgId aid content])

/-- One step of the `save_and_broadcast_message` trace: either a database
commit or an SSE broadcast. -/
inductive SBStep
  | commit (msg : StoredMessage)
  | emit (e : StreamEvent)
deriving DecidableEq

/-- `save_and_broadcast_message` (lines 375-415) as an ordered trace: the
message row is added, committed and refreshed first; only then are the
typewriter events broadcast. -/
def save_and_broadcast_message (m msgId : Nat) (aid : Int)
    (content : String) : List SBStep :=
  SBStep.commit ⟨msgId, m, aid, content⟩
    :: (broadcast_typewriter_message m msgId aid content).map SBStep.emit

/-- The slice of the `meeting_rules` dict read by the loop; `none` models
a missing `discussion_rounds` key. -/
structure MeetingRulesS where
  discussion_rounds : Option Nat
deriving DecidableEq

/-- The meeting row as read by the loop; `meeting_rules = none` models a
falsy (absent or empty) rules dict. -/
structure MeetingInfo where
  topic : String
  meeting_rules : Option MeetingRulesS
deriving DecidableEq

/-- An `AgentConfig` row as used by the loop's roster. -/
structure AgentRow where
  id : Int
  name : String
  role : String
deriving DecidableEq

/-- The collaborators of one `run_agent_conversation` task: the meeting
lookup (`none` = deleted meeting), the post-filter roster of active
agents, the generation oracle (`genO k` is the outcome of the `k`-th call
to `generate_contextual_response`, whose internal `try/except` yields
`none` on a generation failure), and the persistence fault oracle
(`saveFail k` = the `k`-th `db.commit` raises). -/
structure ConvEnv where
  meeting : Option MeetingInfo
  agent_configs : List AgentRow
  genO : Nat → Option String
  saveFail : Nat → Bool

/-- `max_rounds` (lines 233-235): `discussion_rounds * 2` when the key is
present in a truthy rules dict, else the default 8. -/
def maxRounds (info : MeetingInfo) : Nat :=
  match info.meeting_rules with
  | some r =>
    match r.discussion_rounds with
    | some n => n * 2
    | none => 8
  | none => 8

/-- Interview detection (lines 243-244): any of the four keywords occurs
in the lower-cased topic. -/
def is_interview (topic : String) : Bool :=
  ["面试", "招聘", "interview", "求职"].any (fun k => pyIn k (pyLower topic))

/-- Interviewer classification (lines 252-254): any staff keyword occurs
in the lower-cased role or name. -/
def isInterviewerAgent (a : AgentRow) : Bool :=
  ["ceo", "cto", "面试官", "经理", "主管", "hr"].any
    (fun k => pyIn k (pyLower a.role) || pyIn k (pyLower a.name))

/-- The interviewer/interviewee split (lines 247-263), including the
positional fallback when both buckets come out empty. -/
def interviewBuckets (agents : List AgentRow) : List AgentRow × List AgentRow :=
  let ivers := agents.filter (fun a => isInterviewerAgent a)
  let ivees := agents.filter (fun a => !(isInterviewerAgent a))
  if ivers = [] ∧ ivees = [] then
    let mid := agents.length / 2
    (if mid > 0 then agents.take mid else agents.take 1,
     if mid < agents.length then agents.drop mid else [])
  else (ivers, ivees)

/-- The in-flight state of one `run_agent_conversation` body: the
generation- and commit-attempt counters (indices into the oracles), the
message table and its id sequence, the in-memory `existing_content` dedup
list, `message_count`, and the broadcast log. -/
structure RunState where
  attempt : Nat
  saves : Nat
  nextMsgId : Nat
  db : List StoredMessage
  existing_content : List String
  message_count : Nat
  events : List StreamEvent
deriving DecidableEq

/-- One candidate turn (the common shape of lines 288-305, 308-325 and
331-348): generate; if a response came back and its content is not in
`existing_content`, run `save_and_broadcast_message`, append the content
and bump `message_count`. `Except.error` models the exception raised by
a failed commit propagating out of `save_and_broadcast_message` (which
re-raises after logging). -/
def doTurn (env : ConvEnv) (m : Nat) (aid : Int) (st : RunState) :
    Except RunState RunState :=
  let content? := env.genO st.attempt
  let st1 := { st with attempt := st.attempt + 1 }
  match content? with
  | none => .ok st1
  | some content =>
    if content ∈ st1.existing_content then .ok st1
    else if env.saveFail st1.saves then
      .error { st1 with saves := st1.saves + 1 }
    else
      .ok { st1 with
        saves := st1.saves + 1,
        nextMsgId := st1.nextMsgId + 1,
        db := st1.db ++ [⟨st1.nextMsgId, m, aid, content⟩],
        events := st1.events
          ++ broadcast_typewriter_message m st1.nextMsgId aid content,
        existing_content := st1.existing_content ++ [content],
        message_count := st1.message_count + 1 }

/-- One interview round (lines 281-325): pick the interviewer and
interviewee by round-robin, then run the question turn and the answer
turn. There is no `try` around these turns, so a commit exception
propagates (`Except.error`). When either bucket is empty the round does
nothing. -/
def interviewRound (env : ConvEnv) (m : Nat) (ivers ivees : List AgentRow)
    (r : Nat) (st : RunState) : Except RunState RunState :=
  if h : ivers ≠ [] ∧ ivees ≠ [] then
    let iver := ivers.get ⟨r % ivers.length,
      Nat.mod_lt _ (List.length_pos.mpr h.1)⟩
    let ivee := ivees.get ⟨r % ivees.length,
      Nat.mod_lt _ (List.length_pos.mpr h.2)⟩
    match doTurn env m iver.id st with
    | .error st' => .error st'
    | .ok st' => doTurn env m ivee.id st'
  else .ok st

/-- One discussion round (lines 327-351): up to the first two roster
agents speak in turn; each turn sits in its own `try/except` whose
handler logs and `continue`s, so a commit exception is absorbed and the
loop moves to the next agent. -/
def discussionRound (env : ConvEnv) (m : Nat) (agents : List AgentRow)
    (st : RunState) : RunState :=
  (agents.take 2).foldl
    (fun s a =>
      match doTurn env m a.id s with
      | .ok s' => s'
      | .error s' => s')
    st

/-- The mode the loop runs in, fixed before the round loop starts. -/
inductive ConvMode
  | interview (ivers ivees : List AgentRow)
  | discussion (agents : List AgentRow)

/-- The round loop (lines 272-357): each round broadcasts
`round_started` and then runs its exchange; an uncaught exception aborts
the whole loop (`Bool` result: `true` = aborted). -/
def runRounds (env : ConvEnv) (m totalRounds : Nat) (mode : ConvMode) :
    List Nat → RunState → RunState × Bool
  | [], st => (st, false)
  | r :: rs, st =>
    let st0 := { st with
      events := st.events ++ [.roundStarted m (r + 1) totalRounds] }
    match mode with
    | .interview ivers ivees =>
      match interviewRound env m ivers ivees r st0 with
      | .ok st1 => runRounds env m totalRounds mode rs st1
      | .error st1 => (st1, true)
    | .discussion agents =>
      runRounds env m totalRounds mode rs (discussionRound env m agents st0)

/-- The module-level state of `meeting_stream.py`: the
`active_conversations` set (as a duplicate-free list), the number of
scheduled-and-unfinished background conversation tasks, the broadcast
log, the message table and its id sequence. -/
structure SysState where
  active : List Nat
  loops : Nat
  events : List StreamEvent
  db : List StoredMessage
  nextMsgId : Nat
deriving DecidableEq

/-- The value `start_meeting_conversation` returns to its caller. -/
inductive StartResult
  | notFound
  | notActive
  | alreadyInProgress
  | started
deriving DecidableEq

/-- `start_meeting_conversation` (lines 130-170): 404 when the meeting is
missing; 400 unless its status is `"active"`; the duplicate-start guard
returning the "already in progress" acknowledgment; on `force_restart`
the id is discarded from the set and `conversation_reset` is broadcast;
then the id is (re-)added and one more background task is scheduled —
the code never cancels a previously scheduled task. -/
def start_meeting_conversation (meetingStatus : Option String) (m : Nat)
    (force_restart : Bool) (s : SysState) : SysState × StartResult :=
  match meetingStatus with
  | none => (s, .notFound)
  | some status =>
    if status ≠ "active" then (s, .notActive)
    else if m ∈ s.active ∧ ¬ force_restart then (s, .alreadyInProgress)
    else
      let s1 :=
        if force_restart then
          { s with active := s.active.filter (fun x => x ≠ m),
                   events := s.events ++ [.conversationReset m] }
        else s
      let s2 := { s1 with
        active := if m ∈ s1.active then s1.active else s1.active ++ [m] }
      ({ s2 with loops := s2.loops + 1 }, .started)

/-- The outputs of one `run_agent_conversation` body (the `try` block):
the broadcast log, the message table and the id sequence it leaves
behind. -/
structure RunOut where
  events : List StreamEvent
  db : List StoredMessage
  nextMsgId : Nat
deriving DecidableEq

/-- Mode detection (lines 243-263): interview mode with its two buckets
when the topic matches an interview keyword, else discussion mode over
the roster. -/
def convMode (env : ConvEnv) (info : MeetingInfo) : ConvMode :=
  if is_interview info.topic then
    ConvMode.interview (interviewBuckets env.agent_configs).1
      (interviewBuckets env.agent_configs).2
  else ConvMode.discussion env.agent_configs

/-- The loop's starting state (lines 267-271): fresh counters, the
message table as found, and `existing_content` seeded from the 50 most
recent stored messages (`get_meeting_messages` orders by `created_at`
descending with `limit=50`). -/
def initRunState (s : SysState) : RunState :=
  { attempt := 0, saves := 0, nextMsgId := s.nextMsgId,
    db := s.db,
    existing_content :=
      ((s.db.reverse.take 50).map (fun msg => msg.message_content)),
    message_count := 0, events := s.events }

/-- The `try` block of `run_agent_conversation` (lines 193-367): early
return when the meeting is gone or no active agents remain; otherwise
mode detection, `existing_content` seeded from the 50 most recent stored
messages, the round loop, and — unless the loop aborted on an uncaught
exception — the final `conversation_ended` broadcast. -/
def conversationBody (env : ConvEnv) (m : Nat) (s : SysState) : RunOut :=
  match env.meeting with
  | none => ⟨s.events, s.db, s.nextMsgId⟩
  | some info =>
    if env.agent_configs = [] then ⟨s.events, s.db, s.nextMsgId⟩
    else
      let totalRounds := maxRounds info / 2
      let res := runRounds env m totalRounds (convMode env info)
        (List.range totalRounds) (initRunState s)
      if res.2 then ⟨res.1.events, res.1.db, res.1.nextMsgId⟩
      else ⟨res.1.events ++ [.conversationEnded m], res.1.db, res.1.nextMsgId⟩

/-- `run_agent_conversation` (lines 189-373) as one background task: the
`try` body runs (exceptions land in the logged `except` arm), the
`finally` clause discards the meeting id from `active_conversations` on
every termination path, and the finished task leaves the running-task
count. -/
def run_agent_conversation (env : ConvEnv) (m : Nat) (s : SysState) :
    SysState :=
  let out := conversationBody env m s
  { active := s.active.filter (fun x => x ≠ m),
    loops := s.loops - 1,
    events := out.events, db := out.db, nextMsgId := out.nextMsgId }

/-! ## Bookkeeping lemmas for the conversation loop -/

/-- Recognizes `message_start` events (one per persisted message). -/
def isMsgStart : StreamEvent → Bool
  | .messageStart _ _ _ => true
  | _ => false

/-- Recognizes `round_started` events. -/
def isRoundStarted : StreamEvent → Bool
  | .roundStarted _ _ _ => true
  | _ => false

/-- The state carried by either outcome of a fallible step. -/
def exSt : Except RunState RunState → RunState
  | .ok st => st
  | .error st => st

/-- A loop segment in which no round starts: the log grows by `tail`,
the message table grows by exactly the number of `message_start` events
in `tail` (each persisted message is broadcast exactly once), that number
is at most `maxMsgs`, and `tail` contains no `round_started` event. -/
def TurnExtends (st st' : RunState) (maxMsgs : Nat) : Prop :=
  ∃ tail, st'.events = st.events ++ tail ∧
    st'.db.length = st.db.length + (tail.filter isMsgStart).length ∧
    (tail.filter isMsgStart).length ≤ maxMsgs ∧
    tail.filter isRoundStarted = []

/-- A loop segment spanning whole rounds: bounds on both the number of
persisted/broadcast messages and the number of `round_started` events. -/
def SegExtends (st st' : RunState) (msgBound rdBound : Nat) : Prop :=
  ∃ tail, st'.events = st.events ++ tail ∧
    st'.db.length = st.db.length + (tail.filter isMsgStart).length ∧
    (tail.filter isMsgStart).length ≤ msgBound ∧
    (tail.filter isRoundStarted).length ≤ rdBound

section LoopLemmas

private lemma turnExtends_refl (st : RunState) (k : Nat) :
    TurnExtends st st k := ⟨[], by simp, by simp, by simp, rfl⟩

private lemma turnExtends_mono {s1 s2 : RunState} {k k' : Nat}
    (h : TurnExtends s1 s2 k) (hk : k ≤ k') : TurnExtends s1 s2 k' := by
  obtain ⟨t, h1, h2, h3, h4⟩ := h
  exact ⟨t, h1, h2, le_trans h3 hk, h4⟩

private lemma turnExtends_trans {s1 s2 s3 : RunState} {k1 k2 : Nat}
    (h : TurnExtends s1 s2 k1) (h' : TurnExtends s2 s3 k2) :
    TurnExtends s1 s3 (k1 + k2) := by
  obtain ⟨t, h1, h2, h3, h4⟩ := h
  obtain ⟨t', h1', h2', h3', h4'⟩ := h'
  refine ⟨t ++ t', ?_, ?_, ?_, ?_⟩
  · rw [h1', h1, List.append_assoc]
  · rw [h2', h2, List.filter_append, List.length_append]
    omega
  · rw [List.filter_append, List.length_append]
    omega
  · rw [List.filter_append, h4, h4']
    rfl

private lemma segExtends_trans {s1 s2 s3 : RunState} {m1 m2 r1 r2 : Nat}
    (h : SegExtends s1 s2 m1 r1) (h' : SegExtends s2 s3 m2 r2) :
    SegExtends s1 s3 (m1 + m2) (r1 + r2) := by
  obtain ⟨t, h1, h2, h3, h4⟩ := h
  obtain ⟨t', h1', h2', h3', h4'⟩ := h'
  refine ⟨t ++ t', ?_, ?_, ?_, ?_⟩
  · rw [h1', h1, List.append_assoc]
  · rw [h2', h2, List.filter_append, List.length_append]
    omega
  · rw [List.filter_append, List.length_append]
    omega
  · rw [List.filter_append, List.length_append]
    omega

private lemma segExtends_mono {s1 s2 : RunState} {m m' r r' : Nat}
    (h : SegExtends s1 s2 m r) (hm : m ≤ m') (hr : r ≤ r') :
    SegExtends s1 s2 m' r' := by
  obtain ⟨t, h1, h2, h3, h4⟩ := h
  exact ⟨t, h1, h2, le_trans h3 hm, le_trans h4 hr⟩

private lemma turnExtends_seg {s1 s2 : RunState} {k : Nat}
    (h : TurnExtends s1 s2 k) : SegExtends s1 s2 k 0 := by
  obtain ⟨t, h1, h2, h3, h4⟩ := h
  exact ⟨t, h1, h2, h3, by rw [h4]; exact le_refl 0⟩

private lemma roundStartStep (st : RunState) (m r total : Nat) :
    SegExtends st
      { st with events := st.events ++ [.roundStarted m r total] } 0 1 := by
  refine ⟨[.roundStarted m r total], rfl, ?_, ?_, ?_⟩ <;>
    simp [isMsgStart, isRoundStarted, List.filter]

private lemma typingEvents_filter (p : StreamEvent → Bool)
    (hp : ∀ m msgId aid s t pos,
      p (.messageTyping m msgId aid s t pos) = false)
    (m msgId : Nat) (aid : Int) (total : Nat) :
    ∀ (content acc : List Char) (pos : Nat),
      (typingEvents m msgId aid total acc pos content).filter p = [] := by
  intro content
  induction content with
  | nil => intro acc pos; rfl
  | cons c cs ih =>
    intro acc pos
    simp only [typingEvents, List.filter_cons, hp]
    exact ih (acc ++ [c]) (pos + 1)

private lemma tw_filter_msgStart (m msgId : Nat) (aid : Int)
    (content : String) :
    (broadcast_typewriter_message m msgId aid content).filter isMsgStart
      = [.messageStart m msgId aid] := by
  simp only [broadcast_typewriter_message, List.filter_cons,
    List.filter_append,
    typingEvents_filter isMsgStart (fun _ _ _ _ _ _ => rfl)]
  rfl

private lemma tw_filter_roundStarted (m msgId : Nat) (aid : Int)
    (content : String) :
    (broadcast_typewriter_message m msgId aid content).filter isRoundStarted
      = [] := by
  simp only [broadcast_typewriter_message, List.filter_cons,
    List.filter_append,
    typingEvents_filter isRoundStarted (fun _ _ _ _ _ _ => rfl)]
  rfl

/-- Exhaustive description of one candidate turn. -/
private lemma doTurn_cases (env : ConvEnv) (m : Nat) (aid : Int)
    (st : RunState) :
    (env.genO st.attempt = none ∧
      doTurn env m aid st = .ok { st with attempt := st.attempt + 1 }) ∨
    (∃ content, env.genO st.attempt = some content ∧
      content ∈ st.existing_content ∧
      doTurn env m aid st = .ok { st with attempt := st.attempt + 1 }) ∨
    (∃ content, env.genO st.attempt = some content ∧
      content ∉ st.existing_content ∧ env.saveFail st.saves = true ∧
      doTurn env m aid st
        = .error { st with attempt := st.attempt + 1,
                           saves := st.saves + 1 }) ∨
    (∃ content, env.genO st.attempt = some content ∧
      content ∉ st.existing_content ∧ env.saveFail st.saves = false ∧
      doTurn env m aid st = .ok { st with
        attempt := st.attempt + 1,
        saves := st.saves + 1,
        nextMsgId := st.nextMsgId + 1,
        db := st.db ++ [⟨st.nextMsgId, m, aid, content⟩],
        events := st.events
          ++ broadcast_typewriter_message m st.nextMsgId aid content,
        existing_content := st.existing_content ++ [content],
        message_count := st.message_count + 1 }) := by
  unfold doTurn
  cases hg : env.genO st.attempt with
  | none => exact Or.inl ⟨rfl, rfl⟩
  | some content =>
    by_cases hmem : content ∈ st.existing_content
    · refine Or.inr (Or.inl ⟨content, rfl, hmem, ?_⟩)
      simp [hmem]
    · by_cases hsf : env.saveFail st.saves
      · refine Or.inr (Or.inr (Or.inl ⟨content, rfl, hmem, hsf, ?_⟩))
        simp [hmem, hsf]
      · refine Or.inr (Or.inr (Or.inr ⟨content, rfl, hmem,
          Bool.eq_false_iff.mpr hsf, ?_⟩))
        simp [hmem, hsf]

private lemma doTurn_extends (env : ConvEnv) (m : Nat) (aid : Int)
    (st : RunState) :
    TurnExtends st (exSt (doTurn env m aid st)) 1 := by
  rcases doTurn_cases env m aid st with
    ⟨-, h⟩ | ⟨c, -, -, h⟩ | ⟨c, -, -, -, h⟩ | ⟨c, -, -, -, h⟩ <;>
    rw [h]
  · exact turnExtends_mono (turnExtends_refl _ 0) (by omega)
  · exact turnExtends_mono (turnExtends_refl _ 0) (by omega)
  · exact turnExtends_mono (turnExtends_refl _ 0) (by omega)
  · refine ⟨broadcast_typewriter_message m st.nextMsgId aid c, rfl, ?_, ?_, ?_⟩
    · simp [exSt, tw_filter_msgStart]
    · simp [tw_filter_msgStart]
    · exact tw_filter_roundStarted _ _ _ _

private lemma seqTurn_extends (env : ConvEnv) (m : Nat) (a1 a2 : Int)
    (st : RunState) :
    TurnExtends st
      (exSt (match doTurn env m a1 st with
             | .error st' => .error st'
             | .ok st' => doTurn env m a2 st')) 2 := by
  have h1 := doTurn_extends env m a1 st
  cases hd : doTurn env m a1 st with
  | error st' =>
    rw [hd] at h1
    exact turnExtends_mono h1 (by omega)
  | ok st' =>
    rw [hd] at h1
    have h2 := doTurn_extends env m a2 st'
    have := turnExtends_trans h1 h2
    exact turnExtends_mono this (by omega)

private lemma interviewRound_extends (env : ConvEnv) (m : Nat)
    (ivers ivees : List AgentRow) (r : Nat) (st : RunState) :
    TurnExtends st (exSt (interviewRound env m ivers ivees r st)) 2 := by
  unfold interviewRound
  split
  · exact seqTurn_extends env m _ _ st
  · exact turnExtends_mono (turnExtends_refl _ 0) (by omega)

private lemma foldlTurns_extends (env : ConvEnv) (m : Nat) :
    ∀ (l : List AgentRow) (st : RunState),
      TurnExtends st
        (l.foldl (fun s a =>
          match doTurn env m a.id s with
          | .ok s' => s'
          | .error s' => s') st) l.length := by
  intro l
  induction l with
  | nil => intro st; exact turnExtends_refl st 0
  | cons a l ih =>
    intro st
    rw [List.foldl_cons]
    have h1 : TurnExtends st
        (match doTurn env m a.id st with
         | .ok s' => s'
         | .error s' => s') 1 := by
      have := doTurn_extends env m a.id st
      cases hd : doTurn env m a.id st with
      | ok s' => rw [hd] at this; exact this
      | error s' => rw [hd] at this; exact this
    have := turnExtends_trans h1 (ih _)
    simpa [Nat.add_comm] using this

private lemma discussionRound_extends (env : ConvEnv) (m : Nat)
    (agents : List AgentRow) (st : RunState) :
    TurnExtends st (discussionRound env m agents st) 2 := by
  have h := foldlTurns_extends env m (agents.take 2) st
  have hlen : (agents.take 2).length ≤ 2 := by
    simp [List.length_take]
  exact turnExtends_mono h hlen

private lemma runRounds_extends (env : ConvEnv) (m total : Nat)
    (mode : ConvMode) :
    ∀ (rs : List Nat) (st : RunState),
      SegExtends st (runRounds env m total mode rs st).1
        (2 * rs.length) rs.length := by
  intro rs
  induction rs with
  | nil =>
    intro st
    exact ⟨[], by simp [runRounds], by simp [runRounds], by simp, by simp⟩
  | cons r rs ih =>
    intro st
    have hstep := roundStartStep st m (r + 1) total
    set st0 : RunState := { st with
      events := st.events ++ [.roundStarted m (r + 1) total] } with hst0
    cases mode with
    | interview ivers ivees =>
      have hiv := turnExtends_seg (interviewRound_extends env m ivers ivees r st0)
      cases hr : interviewRound env m ivers ivees r st0 with
      | ok st1 =>
        rw [hr] at hiv
        have : runRounds env m total (.interview ivers ivees) (r :: rs) st
            = runRounds env m total (.interview ivers ivees) rs st1 := by
          simp [runRounds, hst0, hr]
        rw [this]
        have := segExtends_trans (segExtends_trans hstep hiv) (ih st1)
        refine segExtends_mono this ?_ ?_ <;> simp only [List.length_cons] <;> omega
      | error st1 =>
        rw [hr] at hiv
        have : runRounds env m total (.interview ivers ivees) (r :: rs) st
            = (st1, true) := by
          simp [runRounds, hst0, hr]
        rw [this]
        have := segExtends_trans hstep hiv
        refine segExtends_mono this ?_ ?_ <;> simp only [List.length_cons] <;> omega
    | discussion agents =>
      have hd := turnExtends_seg (discussionRound_extends env m agents st0)
      have : runRounds env m total (.discussion agents) (r :: rs) st
          = runRounds env m total (.discussion agents) rs
              (discussionRound env m agents st0) := by
        simp [runRounds, hst0]
      rw [this]
      have := segExtends_trans (segExtends_trans hstep hd)
        (ih (discussionRound env m agents st0))
      refine segExtends_mono this ?_ ?_ <;> simp only [List.length_cons] <;> omega

/-- In discussion mode every per-turn exception is absorbed, so the round
loop never aborts, and it broadcasts exactly one `round_started` per
configured round. -/
private lemma runRounds_discussion_spec (env : ConvEnv) (m total : Nat)
    (agents : List AgentRow) :
    ∀ (rs : List Nat) (st : RunState),
      (runRounds env m total (.discussion agents) rs st).2 = false ∧
      ∃ tail,
        (runRounds env m total (.discussion agents) rs st).1.events
          = st.events ++ tail ∧
        (tail.filter isRoundStarted).length = rs.length := by
  intro rs
  induction rs with
  | nil =>
    intro st
    exact ⟨rfl, [], by simp [runRounds], rfl⟩
  | cons r rs ih =>
    intro st
    set st0 : RunState := { st with
      events := st.events ++ [.roundStarted m (r + 1) total] } with hst0
    have hrw : runRounds env m total (.discussion agents) (r :: rs) st
        = runRounds env m total (.discussion agents) rs
            (discussionRound env m agents st0) := by
      simp [runRounds, hst0]
    obtain ⟨dtail, hd1, -, -, hd4⟩ := discussionRound_extends env m agents st0
    obtain ⟨hab, tail', ht1, ht2⟩ := ih (discussionRound env m agents st0)
    refine ⟨by rw [hrw]; exact hab, ?_⟩
    refine ⟨[.roundStarted m (r + 1) total] ++ dtail ++ tail', ?_, ?_⟩
    · rw [hrw, ht1, hd1, hst0]
      simp [List.append_assoc]
    · simp only [List.filter_append, List.length_append, hd4, ht2]
      simp only [isRoundStarted, List.filter, List.length_cons,
        List.length_nil]
      omega

private lemma conversationBody_eq (env : ConvEnv) (m : Nat) (s : SysState)
    (info : MeetingInfo) (hm : env.meeting = some info)
    (hne : env.agent_configs ≠ []) :
    conversationBody env m s =
      (if (runRounds env m (maxRounds info / 2) (convMode env info)
            (List.range (maxRounds info / 2)) (initRunState s)).2 then
        (⟨(runRounds env m (maxRounds info / 2) (convMode env info)
            (List.range (maxRounds info / 2)) (initRunState s)).1.events,
          (runRounds env m (maxRounds info / 2) (convMode env info)
            (List.range (maxRounds info / 2)) (initRunState s)).1.db,
          (runRounds env m (maxRounds info / 2) (convMode env info)
            (List.range (maxRounds info / 2)) (initRunState s)).1.nextMsgId⟩ : RunOut)
      else
        ⟨(runRounds env m (maxRounds info / 2) (convMode env info)
            (List.range (maxRounds info / 2)) (initRunState s)).1.events
              ++ [.conversationEnded m],
          (runRounds env m (maxRounds info / 2) (convMode env info)
            (List.range (maxRounds info / 2)) (initRunState s)).1.db,
          (runRounds env m (maxRounds info / 2) (convMode env info)
            (List.range (maxRounds info / 2)) (initRunState s)).1.nextMsgId⟩) := by
  unfold conversationBody
  rw [hm]
  simp [hne]

private lemma run_events_extend (env : ConvEnv) (m : Nat) (s : SysState) :
    ∃ tail, (run_agent_conversation env m s).events = s.events ++ tail := by
  show ∃ tail, (conversationBody env m s).events = s.events ++ tail
  cases hm : env.meeting with
  | none =>
    refine ⟨[], ?_⟩
    unfold conversationBody
    rw [hm]
    simp
  | some info =>
    by_cases hne : env.agent_configs = []
    · refine ⟨[], ?_⟩
      unfold conversationBody
      rw [hm]
      simp [hne]
    · rw [conversationBody_eq env m s info hm hne]
      obtain ⟨tail, h1, -, -, -⟩ := runRounds_extends env m (maxRounds info / 2)
        (convMode env info) (List.range (maxRounds info / 2)) (initRunState s)
      have hinit : (initRunState s).events = s.events := rfl
      rw [hinit] at h1
      by_cases hab : (runRounds env m (maxRounds info / 2) (convMode env info)
          (List.range (maxRounds info / 2)) (initRunState s)).2
      · exact ⟨tail, by rw [if_pos hab]; exact h1⟩
      · refine ⟨tail ++ [.conversationEnded m], ?_⟩
        rw [if_neg hab]
        show _ ++ [StreamEvent.conversationEnded m] = _
        rw [h1, List.append_assoc]

end LoopLemmas

/-- **C3.** Starting a conversation for a meeting whose id is already in
`active_conversations`, without `force_restart`, returns the
"already in progress" acknowledgment and leaves the module state exactly
unchanged: no new background loop is scheduled (`loops` is unchanged, so
a single running loop stays single) and no `conversation_reset` (nor any
other event) is broadcast. -/
theorem c3_duplicate_start_noop (s : SysState) (m : Nat)
    (h : m ∈ s.active) :
    start_meeting_conversation (some "active") m false s
      = (s, .alreadyInProgress) := by
  simp [start_meeting_conversation, h]

/-- The concrete state for the C3 witness: meeting 7 is active with one
running loop. -/
def sW3 : SysState := ⟨[7], 1, [], [], 0⟩

/-- Witness for C3 at a concrete state with one running loop for
meeting 7. -/
theorem c3_witness :
    start_meeting_conversation (some "active") 7 false sW3
      = (sW3, .alreadyInProgress) :=
  c3_duplicate_start_noop sW3 7 (by decide)

/-- **C9.** Whatever the collaborators do — meeting deleted, empty
roster, per-turn faults, an exception aborting the round loop — when the
background task `run_agent_conversation` terminates, the `finally` clause
has removed the meeting id from `active_conversations`, and a subsequent
`start_conversation` for that meeting is accepted as a fresh start
(returns `started`, not `alreadyInProgress`). -/
theorem c9_finally_discards_active (env : ConvEnv) (m : Nat)
    (s : SysState) :
    m ∉ (run_agent_conversation env m s).active ∧
    (start_meeting_conversation (some "active") m false
        (run_agent_conversation env m s)).2 = .started := by
  have hm : m ∉ (run_agent_conversation env m s).active := by
    show m ∉ s.active.filter (fun x => x ≠ m)
    simp
  refine ⟨hm, ?_⟩
  simp [start_meeting_conversation, hm]

/-- The concrete state for the C6 counterexample: meeting 7 is running
with exactly one scheduled background loop. -/
def sC6 : SysState := ⟨[7], 1, [], [], 0⟩

/-- **C6 (counterexample).** Force-restarting while one loop runs leaves
TWO scheduled-and-unfinished background loops for meeting 7, because
`start_meeting_conversation` only discards the id from the
`active_conversations` set and schedules a fresh task — nothing cancels
the old task, which keeps running. This refutes "the old loop's in-flight
state is discarded so that only the fresh loop continues". The reset
event itself is broadcast (first two conjuncts show the call succeeds and
emits the reset). -/
theorem c6_counterexample :
    sC6.loops = 1 ∧ 7 ∈ sC6.active ∧
    (start_meeting_conversation (some "active") 7 true sC6).2
      = .started ∧
    ((start_meeting_conversation (some "active") 7 true sC6).1).events
      = [.conversationReset 7] ∧
    ((start_meeting_conversation (some "active") 7 true sC6).1).loops
      = 2 := by
  refine ⟨rfl, by decide, by decide, by decide, by decide⟩

/-- **C6 (amended).** `start_conversation(m, force_restart=true)` while
`m` is running broadcasts `conversation_reset` immediately — before the
new background loop is even scheduled, hence before any of the new loop's
`round_started` events (every event of the new loop lands strictly after
the reset in the log) — and removes/re-adds `m` in the duplicate-start
set; but the old loop's task is NOT cancelled: the count of
scheduled-and-unfinished loops grows from `loops` to `loops + 1`, so the
old loop continues alongside the fresh one. -/
theorem c6_force_restart_reset_before_new_loop (s : SysState) (m : Nat)
    (env : ConvEnv) (_h : m ∈ s.active) :
    (start_meeting_conversation (some "active") m true s).2 = .started ∧
    ((start_meeting_conversation (some "active") m true s).1).events
      = s.events ++ [.conversationReset m] ∧
    ((start_meeting_conversation (some "active") m true s).1).loops
      = s.loops + 1 ∧
    ∃ tail, (run_agent_conversation env m
        (start_meeting_conversation (some "active") m true s).1).events
      = s.events ++ [.conversationReset m] ++ tail := by
  have h2 : ((start_meeting_conversation (some "active") m true s).1).events
      = s.events ++ [.conversationReset m] := by
    simp [start_meeting_conversation]
  refine ⟨by simp [start_meeting_conversation], h2,
    by simp [start_meeting_conversation], ?_⟩
  obtain ⟨tail, ht⟩ := run_events_extend env m
    (start_meeting_conversation (some "active") m true s).1
  exact ⟨tail, by rw [ht, h2]⟩

/-- Witness for C6 at the concrete state `sC6` (meeting 7 running, one
loop), with an arbitrary concrete environment for the fresh loop. -/
theorem c6_witness :
    (start_meeting_conversation (some "active") 7 true sC6).2 = .started ∧
    ((start_meeting_conversation (some "active") 7 true sC6).1).events
      = sC6.events ++ [.conversationReset 7] ∧
    ((start_meeting_conversation (some "active") 7 true sC6).1).loops
      = sC6.loops + 1 ∧
    ∃ tail, (run_agent_conversation ⟨none, [], fun _ => none, fun _ => false⟩ 7
        (start_meeting_conversation (some "active") 7 true sC6).1).events
      = sC6.events ++ [.conversationReset 7] ++ tail :=
  c6_force_restart_reset_before_new_loop sC6 7
    ⟨none, [], fun _ => none, fun _ => false⟩ (by decide)

/-- The concrete base state shared by the loop counterexamples and
witnesses: meeting 7 running, one loop, empty log and message table. -/
def sC4 : SysState := ⟨[7], 1, [], [], 0⟩

/-- An interview-mode environment with 2 configured rounds in which the
very first `db.commit` raises; generation always succeeds with fresh
content. -/
def envC4 : ConvEnv :=
  { meeting := some ⟨"interview", some ⟨some 2⟩⟩,
    agent_configs := [⟨1, "A", "CEO"⟩, ⟨2, "B", "dev"⟩],
    genO := fun n => some (String.mk (List.replicate (n + 1) 'x')),
    saveFail := fun i => i == 0 }

/-- `envC4` with a healthy database. -/
def envC4ok : ConvEnv :=
  { meeting := some ⟨"interview", some ⟨some 2⟩⟩,
    agent_configs := [⟨1, "A", "CEO"⟩, ⟨2, "B", "dev"⟩],
    genO := fun n => some (String.mk (List.replicate (n + 1) 'x')),
    saveFail := fun _ => false }

/-- **C4 (counterexample).** In interview mode a persistence exception in
a single turn terminates the whole session: with 2 configured rounds and
a single failing commit on the very first turn, the run broadcasts only
the first `round_started` and then stops — no second round, no message,
and no `conversation_ended` — because the interview branch has no
per-turn `try/except` and the exception falls through to the session
handler. The same environment with a healthy database completes both
rounds and ends normally (last two conjuncts). -/
theorem c4_counterexample :
    (run_agent_conversation envC4 7 sC4).events
      = [.roundStarted 7 1 2] ∧
    (run_agent_conversation envC4 7 sC4).db = [] ∧
    ((run_agent_conversation envC4ok 7 sC4).events.filter
        isRoundStarted).length = 2 ∧
    (run_agent_conversation envC4ok 7 sC4).events.getLast?
      = some (.conversationEnded 7) := by
  refine ⟨by decide, by decide, by decide, by decide⟩

/-- **C4 (amended).** In DISCUSSION mode the claim holds: each turn sits
in its own `try/except`, so whatever the generation and persistence
oracles do — any turn may fail — every configured round still starts and
the loop runs to completion, finishing with `conversation_ended`;
a per-turn exception never terminates the session. (In interview mode it
does — see the counterexample.) -/
theorem c4_discussion_survives_turn_exceptions (env : ConvEnv) (m : Nat)
    (s : SysState) (info : MeetingInfo)
    (hm : env.meeting = some info)
    (hdisc : is_interview info.topic = false)
    (hne : env.agent_configs ≠ []) :
    ∃ tail, (run_agent_conversation env m s).events = s.events ++ tail ∧
      (tail.filter isRoundStarted).length = maxRounds info / 2 ∧
      tail.getLast? = some (.conversationEnded m) := by
  have hbody := conversationBody_eq env m s info hm hne
  have hmode : convMode env info = ConvMode.discussion env.agent_configs := by
    simp [convMode, hdisc]
  rw [hmode] at hbody
  obtain ⟨hab, tail, ht1, ht2⟩ := runRounds_discussion_spec env m
    (maxRounds info / 2) env.agent_configs
    (List.range (maxRounds info / 2)) (initRunState s)
  rw [hab] at hbody
  simp only [if_false, Bool.false_eq_true] at hbody
  have hinit : (initRunState s).events = s.events := rfl
  rw [hinit] at ht1
  refine ⟨tail ++ [.conversationEnded m], ?_, ?_, ?_⟩
  · show (conversationBody env m s).events = _
    rw [hbody]
    show _ ++ [StreamEvent.conversationEnded m] = _
    rw [ht1, List.append_assoc]
  · rw [List.filter_append, List.length_append, ht2, List.length_range]
    simp [isRoundStarted, List.filter]
  · exact List.getLast?_concat _

/-- A discussion-mode environment (topic has no interview keyword) with
2 configured rounds and the first commit failing, for the C4 witness. -/
def envC4d : ConvEnv :=
  { meeting := some ⟨"weekly sync", some ⟨some 2⟩⟩,
    agent_configs := [⟨1, "A", "dev"⟩, ⟨2, "B", "dev"⟩],
    genO := fun n => some (String.mk (List.replicate (n + 1) 'y')),
    saveFail := fun i => i == 0 }

/-- Witness for C4 (amended) at the concrete faulty discussion
environment: all rounds start and the run ends with
`conversation_ended` even though the first commit raised. -/
theorem c4_witness :
    ∃ tail, (run_agent_conversation envC4d 7 sC4).events
        = sC4.events ++ tail ∧
      (tail.filter isRoundStarted).length
        = maxRounds ⟨"weekly sync", some ⟨some 2⟩⟩ / 2 ∧
      tail.getLast? = some (.conversationEnded 7) :=
  c4_discussion_survives_turn_exceptions envC4d 7 sC4
    ⟨"weekly sync", some ⟨some 2⟩⟩ rfl (by decide) (by decide)

/-- **C5.** With `discussion_rounds = N` in the meeting rules, one run of
the conversation loop persists at most `2N` messages and broadcasts at
most `2N` message-bearing (`message_start`) event groups — in either
mode, with arbitrary generation/persistence behavior, hence in
particular before the final `conversation_ended` event. -/
theorem c5_termination_bound (env : ConvEnv) (m : Nat) (s : SysState)
    (info : MeetingInfo) (rules : MeetingRulesS) (N : Nat)
    (hm : env.meeting = some info)
    (hr : info.meeting_rules = some rules)
    (hd : rules.discussion_rounds = some N) :
    (run_agent_conversation env m s).db.length ≤ s.db.length + 2 * N ∧
    ∃ tail, (run_agent_conversation env m s).events = s.events ++ tail ∧
      (tail.filter isMsgStart).length ≤ 2 * N := by
  have htot : maxRounds info / 2 = N := by
    simp [maxRounds, hr, hd]
  by_cases hne : env.agent_configs = []
  · have hbody : conversationBody env m s = ⟨s.events, s.db, s.nextMsgId⟩ := by
      unfold conversationBody
      rw [hm]
      simp [hne]
    constructor
    · show (conversationBody env m s).db.length ≤ _
      rw [hbody]
      show s.db.length ≤ s.db.length + 2 * N
      omega
    · refine ⟨[], ?_, by simp⟩
      show (conversationBody env m s).events = _
      rw [hbody]
      simp
  · have hbody := conversationBody_eq env m s info hm hne
    obtain ⟨tail, h1, h2, h3, -⟩ := runRounds_extends env m
      (maxRounds info / 2) (convMode env info)
      (List.range (maxRounds info / 2)) (initRunState s)
    have hlen : (List.range (maxRounds info / 2)).length = N := by
      rw [List.length_range, htot]
    rw [hlen] at h3
    have hinit_db : (initRunState s).db = s.db := rfl
    have hinit_ev : (initRunState s).events = s.events := rfl
    rw [hinit_db] at h2
    rw [hinit_ev] at h1
    have hdb : (conversationBody env m s).db
        = (runRounds env m (maxRounds info / 2)
            (convMode env info) (List.range (maxRounds info / 2))
            (initRunState s)).1.db := by
      rw [hbody]
      split <;> rfl
    constructor
    · show (conversationBody env m s).db.length ≤ _
      rw [hdb, h2]
      omega
    · by_cases hab : (runRounds env m (maxRounds info / 2)
          (convMode env info) (List.range (maxRounds info / 2))
          (initRunState s)).2
      · refine ⟨tail, ?_, h3⟩
        show (conversationBody env m s).events = _
        rw [hbody, if_pos hab]
        exact h1
      · refine ⟨tail ++ [.conversationEnded m], ?_, ?_⟩
        · show (conversationBody env m s).events = _
          rw [hbody, if_neg hab]
          show _ ++ [StreamEvent.conversationEnded m] = _
          rw [h1, List.append_assoc]
        · rw [List.filter_append, List.length_append]
          simp only [isMsgStart, List.filter, List.length_nil]
          omega

/-- A healthy 1-round discussion environment for the C5 witness. -/
def envC5 : ConvEnv :=
  { meeting := some ⟨"weekly sync", some ⟨some 1⟩⟩,
    agent_configs := [⟨1, "A", "dev"⟩],
    genO := fun _ => some "t",
    saveFail := fun _ => false }

/-- Witness for C5 with `discussion_rounds = 1` at a concrete state. -/
theorem c5_witness :
    (run_agent_conversation envC5 7 sC4).db.length
      ≤ sC4.db.length + 2 * 1 ∧
    ∃ tail, (run_agent_conversation envC5 7 sC4).events
        = sC4.events ++ tail ∧
      (tail.filter isMsgStart).length ≤ 2 * 1 :=
  c5_termination_bound envC5 7 sC4 ⟨"weekly sync", some ⟨some 1⟩⟩
    ⟨some 1⟩ 1 rfl rfl rfl

section DedupLemmas

/-- A turn whose generated content is already in `existing_content` only
advances the attempt counter: nothing is stored, nothing is broadcast. -/
private lemma doTurn_skip (env : ConvEnv) (m : Nat) (aid : Int)
    (st : RunState) (c : String) (hg : env.genO st.attempt = some c)
    (hmem : c ∈ st.existing_content) :
    doTurn env m aid st = .ok { st with attempt := st.attempt + 1 } := by
  unfold doTurn
  rw [hg]
  simp [hmem]

end DedupLemmas

/-- **C7.** Within one run, if two consecutive turns generate
string-equal text and the first turn completed without raising (it either
persisted the text or skipped it as an earlier duplicate), the second
turn is a pure no-op apart from its attempt counter: the text is in the
dedup list after the first turn, so the duplicate turn stores no message
and broadcasts no events. Consecutive turns query consecutive generation
attempts, which is how the round loop threads `doTurn`. -/
theorem c7_consecutive_duplicate_suppressed (env : ConvEnv) (m : Nat)
    (a1 a2 : Int) (st st1 : RunState) (t : String)
    (h1 : env.genO st.attempt = some t)
    (h2 : env.genO (st.attempt + 1) = some t)
    (hok : doTurn env m a1 st = .ok st1) :
    t ∈ st1.existing_content ∧
    doTurn env m a2 st1 = .ok { st1 with attempt := st1.attempt + 1 } := by
  rcases doTurn_cases env m a1 st with
    ⟨hg, h⟩ | ⟨c, hg, hmem, h⟩ | ⟨c, hg, hmem, hsf, h⟩ | ⟨c, hg, hmem, hsf, h⟩
  · rw [hg] at h1
    exact absurd h1 (by simp)
  · have hct : c = t := by
      rw [hg] at h1
      exact Option.some.inj h1
    rw [h] at hok
    have hst1 : st1 = { st with attempt := st.attempt + 1 } :=
      (Except.ok.inj hok).symm
    subst hst1
    subst hct
    refine ⟨hmem, ?_⟩
    exact doTurn_skip env m a2 _ c h2 hmem
  · rw [h] at hok
    exact absurd hok (by simp)
  · have hct : c = t := by
      rw [hg] at h1
      exact Option.some.inj h1
    rw [h] at hok
    have hst1 : st1 = { st with
        attempt := st.attempt + 1,
        saves := st.saves + 1,
        nextMsgId := st.nextMsgId + 1,
        db := st.db ++ [⟨st.nextMsgId, m, a1, c⟩],
        events := st.events
          ++ broadcast_typewriter_message m st.nextMsgId a1 c,
        existing_content := st.existing_content ++ [c],
        message_count := st.message_count + 1 } :=
      (Except.ok.inj hok).symm
    subst hst1
    subst hct
    have hmem1 : c ∈ st.existing_content ++ [c] := by simp
    refine ⟨hmem1, ?_⟩
    exact doTurn_skip env m a2 _ c h2 hmem1

/-- The environment for the C7 witness: generation always returns
`"hello"`, persistence never fails. -/
def envC7 : ConvEnv := ⟨none, [], fun _ => some "hello", fun _ => false⟩

/-- The fresh in-flight state for the C7 witness. -/
def stC7 : RunState := ⟨0, 0, 0, [], [], 0, []⟩

/-- The state after the first `"hello"` turn of the C7 witness. -/
def stC7' : RunState := exSt (doTurn envC7 7 1 stC7)

/-- Witness for C7: after a first turn persists `"hello"`, a consecutive
turn generating the same `"hello"` stores nothing and emits nothing. -/
theorem c7_witness :
    "hello" ∈ stC7'.existing_content ∧
    doTurn envC7 7 2 stC7'
      = .ok { stC7' with attempt := stC7'.attempt + 1 } :=
  c7_consecutive_duplicate_suppressed envC7 7 1 2 stC7 stC7' "hello"
    rfl rfl rfl

section TypewriterLemmas

private lemma typingEvents_length (m msgId : Nat) (aid : Int)
    (total : Nat) :
    ∀ (content acc : List Char) (pos : Nat),
      (typingEvents m msgId aid total acc pos content).length
        = content.length := by
  intro content
  induction content with
  | nil => intro acc pos; rfl
  | cons c cs ih =>
    intro acc pos
    simp only [typingEvents, List.length_cons, ih]

private lemma typingEvents_get? (m msgId : Nat) (aid : Int)
    (total : Nat) :
    ∀ (content acc : List Char) (pos i : Nat), i < content.length →
      (typingEvents m msgId aid total acc pos content).get? i
        = some (.messageTyping m msgId aid
            (String.mk (acc ++ content.take (i + 1))) total
            (pos + i + 1)) := by
  intro content
  induction content with
  | nil =>
    intro acc pos i hi
    simp at hi
  | cons c cs ih =>
    intro acc pos i hi
    cases i with
    | zero => simp [typingEvents, List.take_succ_cons]
    | succ j =>
      have hj : j < cs.length := by simpa using hi
      show (typingEvents m msgId aid total (acc ++ [c]) (pos + 1) cs).get? j
        = _
      rw [ih (acc ++ [c]) (pos + 1) j hj]
      have harg : (acc ++ [c]) ++ cs.take (j + 1)
          = acc ++ (c :: cs).take (j + 1 + 1) := by
        simp [List.take_succ_cons]
      have hpos : pos + 1 + j + 1 = pos + (j + 1) + 1 := by omega
      rw [harg, hpos]

private lemma typingEvents_getLast (m msgId : Nat) (aid : Int)
    (total : Nat) :
    ∀ (content acc : List Char) (pos : Nat), content ≠ [] →
      (typingEvents m msgId aid total acc pos content).getLast?
        = some (.messageTyping m msgId aid (String.mk (acc ++ content))
            total (pos + content.length)) := by
  intro content
  induction content with
  | nil => intro acc pos h; exact absurd rfl h
  | cons c cs ih =>
    intro acc pos h
    cases cs with
    | nil => simp [typingEvents]
    | cons d ds =>
      show (StreamEvent.messageTyping m msgId aid
          (String.mk (acc ++ [c])) total (pos + 1)
        :: typingEvents m msgId aid total (acc ++ [c]) (pos + 1)
            (d :: ds)).getLast? = _
      rw [show typingEvents m msgId aid total (acc ++ [c]) (pos + 1)
            (d :: ds)
          = StreamEvent.messageTyping m msgId aid
              (String.mk ((acc ++ [c]) ++ [d])) total (pos + 1 + 1)
            :: typingEvents m msgId aid total ((acc ++ [c]) ++ [d])
                (pos + 1 + 1) ds from rfl]
      rw [List.getLast?_cons_cons]
      rw [show StreamEvent.messageTyping m msgId aid
              (String.mk ((acc ++ [c]) ++ [d])) total (pos + 1 + 1)
            :: typingEvents m msgId aid total ((acc ++ [c]) ++ [d])
                (pos + 1 + 1) ds
          = typingEvents m msgId aid total (acc ++ [c]) (pos + 1)
              (d :: ds) from rfl]
      rw [ih (acc ++ [c]) (pos + 1) (by simp)]
      have harg : (acc ++ [c]) ++ (d :: ds) = acc ++ (c :: d :: ds) := by
        simp
      have hpos : pos + 1 + (d :: ds).length = pos + (c :: d :: ds).length := by
        simp only [List.length_cons]
        omega
      rw [harg, hpos]

end TypewriterLemmas

/-- **C8.** For a message with nonempty text of length `L`,
`save_and_broadcast_message` commits the message row to storage FIRST and
only then broadcasts, in order: one `message_start`; exactly `L`
`message_typing` events, the `i`-th (1-based) carrying as
`partial_content` the first `i` characters (so each is a prefix of the
text and the last equals the full text); then one `message_complete`
carrying the full text. -/
theorem c8_typewriter_delivery (m msgId : Nat) (aid : Int)
    (content : String) (h : content.data ≠ []) :
    save_and_broadcast_message m msgId aid content
      = SBStep.commit ⟨msgId, m, aid, content⟩
          :: (broadcast_typewriter_message m msgId aid content).map
              SBStep.emit ∧
    broadcast_typewriter_message m msgId aid content
      = StreamEvent.messageStart m msgId aid
          :: (typingEvents m msgId aid content.data.length [] 0 content.data
              ++ [StreamEvent.messageComplete m msgId aid content]) ∧
    (typingEvents m msgId aid content.data.length [] 0 content.data).length
      = content.data.length ∧
    (∀ i, i < content.data.length →
      (typingEvents m msgId aid content.data.length [] 0 content.data).get? i
        = some (StreamEvent.messageTyping m msgId aid
            (String.mk (content.data.take (i + 1)))
            content.data.length (i + 1))) ∧
    (typingEvents m msgId aid content.data.length [] 0 content.data).getLast?
      = some (StreamEvent.messageTyping m msgId aid content
          content.data.length content.data.length) := by
  refine ⟨rfl, rfl, typingEvents_length m msgId aid content.data.length
    content.data [] 0, ?_, ?_⟩
  · intro i hi
    have := typingEvents_get? m msgId aid content.data.length
      content.data [] 0 i hi
    simpa using this
  · have := typingEvents_getLast m msgId aid content.data.length
      content.data [] 0 h
    simpa using this

/-- Witness for C8 at the two-character message `"hi"`. -/
theorem c8_witness :
    save_and_broadcast_message 7 3 1 "hi"
      = SBStep.commit ⟨3, 7, 1, "hi"⟩
          :: (broadcast_typewriter_message 7 3 1 "hi").map SBStep.emit ∧
    broadcast_typewriter_message 7 3 1 "hi"
      = StreamEvent.messageStart 7 3 1
          :: (typingEvents 7 3 1 "hi".data.length [] 0 "hi".data
              ++ [StreamEvent.messageComplete 7 3 1 "hi"]) ∧
    (typingEvents 7 3 1 "hi".data.length [] 0 "hi".data).length
      = "hi".data.length ∧
    (∀ i, i < "hi".data.length →
      (typingEvents 7 3 1 "hi".data.length [] 0 "hi".data).get? i
        = some (StreamEvent.messageTyping 7 3 1
            (String.mk ("hi".data.take (i + 1))) "hi".data.length (i + 1))) ∧
    (typingEvents 7 3 1 "hi".data.length [] 0 "hi".data).getLast?
      = some (StreamEvent.messageTyping 7 3 1 "hi"
          "hi".data.length "hi".data.length) :=
  c8_typewriter_delivery 7 3 1 "hi" (by decide)

/-! ## C10: `MeetingSpeakingScheduler` control operations
(`services/meeting_scheduler.py`, lines 284-306) -/

/-- The mutable per-meeting session dict created by `initialize_meeting`
(lines 66-77): round counter, current speaker, recent-speaker window,
message count, start timestamp, activity and pause flags. (The fixed
`meeting`/`participants`/`discussion_context` references are never
touched by the control operations and are omitted.) -/
structure SessionState where
  current_round : Nat
  current_speaker : Option Int
  last_speakers : List Int
  message_count : Nat
  start_time : Nat
  is_active : Bool
  pause_requested : Bool
deriving DecidableEq

/-- The scheduler's `active_meetings` dict as an association list (one
entry per initialized meeting). -/
structure MeetingSpeakingScheduler where
  active_meetings : List (Nat × SessionState)
deriving DecidableEq

/-- Python `self.active_meetings[meeting_id][field] = value`: point
update of the entry with the given key. -/
def updAt (m : Nat) (f : SessionState → SessionState)
    (l : List (Nat × SessionState)) : List (Nat × SessionState) :=
  l.map (fun p => if p.1 = m then (p.1, f p.2) else p)

/-- `pause_meeting` (lines 284-290): when the meeting is present, set
only its `pause_requested` flag to `True` and return `True`; otherwise
return `False`. -/
def pause_meeting (sch : MeetingSpeakingScheduler) (m : Nat) :
    MeetingSpeakingScheduler × Bool :=
  if (sch.active_meetings.lookup m).isSome then
    (⟨updAt m (fun st => { st with pause_requested := true })
        sch.active_meetings⟩, true)
  else (sch, false)

/-- `resume_meeting` (lines 292-298): when present, set only
`pause_requested := False` and return `True`; otherwise `False`. -/
def resume_meeting (sch : MeetingSpeakingScheduler) (m : Nat) :
    MeetingSpeakingScheduler × Bool :=
  if (sch.active_meetings.lookup m).isSome then
    (⟨updAt m (fun st => { st with pause_requested := false })
        sch.active_meetings⟩, true)
  else (sch, false)

/-- `stop_meeting` (lines 300-306): when present, set only
`is_active := False` and return `True`; otherwise `False`. -/
def stop_meeting (sch : MeetingSpeakingScheduler) (m : Nat) :
    MeetingSpeakingScheduler × Bool :=
  if (sch.active_meetings.lookup m).isSome then
    (⟨updAt m (fun st => { st with is_active := false })
        sch.active_meetings⟩, true)
  else (sch, false)

section SchedulerLemmas

private lemma lookup_updAt_self (m : Nat) (f : SessionState → SessionState) :
    ∀ l : List (Nat × SessionState),
      (updAt m f l).lookup m = (l.lookup m).map f := by
  intro l
  induction l with
  | nil => rfl
  | cons p l ih =>
    rcases p with ⟨k, v⟩
    simp only [updAt, List.map_cons]
    by_cases hk : k = m
    · subst hk
      rw [if_pos rfl]
      show List.lookup k ((k, f v) :: updAt k f l)
        = (List.lookup k ((k, v) :: l)).map f
      simp only [List.lookup, beq_self_eq_true]
      rfl
    · rw [if_neg hk]
      have hmk : (m == k) = false := by
        rw [beq_eq_false_iff_ne]
        omega
      show List.lookup m ((k, v) :: updAt m f l)
        = (List.lookup m ((k, v) :: l)).map f
      simp only [List.lookup, hmk]
      exact ih

private lemma lookup_updAt_other (m k : Nat)
    (f : SessionState → SessionState) (hk : k ≠ m) :
    ∀ l : List (Nat × SessionState),
      (updAt m f l).lookup k = l.lookup k := by
  intro l
  induction l with
  | nil => rfl
  | cons p l ih =>
    rcases p with ⟨k', v⟩
    simp only [updAt, List.map_cons]
    by_cases h' : k' = m
    · rw [if_pos h']
      have hkk : (k == k') = false := by
        rw [beq_eq_false_iff_ne]
        omega
      show List.lookup k ((k', f v) :: updAt m f l)
        = List.lookup k ((k', v) :: l)
      simp only [List.lookup, hkk]
      exact ih
    · rw [if_neg h']
      show List.lookup k ((k', v) :: updAt m f l)
        = List.lookup k ((k', v) :: l)
      simp only [List.lookup]
      cases hkk : (k == k') with
      | true => rfl
      | false => exact ih

private lemma controlUpdate_spec (sch : MeetingSpeakingScheduler) (m : Nat)
    (f : SessionState → SessionState) (st : SessionState)
    (hst : sch.active_meetings.lookup m = some st) :
    (updAt m f sch.active_meetings).lookup m = some (f st) ∧
    ∀ k, k ≠ m →
      (updAt m f sch.active_meetings).lookup k
        = sch.active_meetings.lookup k := by
  constructor
  · rw [lookup_updAt_self, hst]
    rfl
  · intro k hk
    exact lookup_updAt_other m k f hk _

end SchedulerLemmas

/-- **C10.** For a meeting id absent from `active_meetings`, each of
`pause_meeting`, `resume_meeting`, `stop_meeting` returns `False` and
leaves the scheduler entirely unchanged. For a present meeting, each
returns `True` and flips exactly its one flag — `pause_requested := True`
for pause, `pause_requested := False` for resume, `is_active := False`
for stop — leaving every other session-state field (round counter,
current speaker, recent speakers, message count, start time, and the
respective other flag) and every other meeting's entry untouched. -/
theorem c10_control_ops_frame (sch : MeetingSpeakingScheduler) (m : Nat) :
    (sch.active_meetings.lookup m = none →
      pause_meeting sch m = (sch, false) ∧
      resume_meeting sch m = (sch, false) ∧
      stop_meeting sch m = (sch, false)) ∧
    (∀ st, sch.active_meetings.lookup m = some st →
      ((pause_meeting sch m).2 = true ∧
        (pause_meeting sch m).1.active_meetings.lookup m
          = some { st with pause_requested := true } ∧
        ∀ k, k ≠ m → (pause_meeting sch m).1.active_meetings.lookup k
          = sch.active_meetings.lookup k) ∧
      ((resume_meeting sch m).2 = true ∧
        (resume_meeting sch m).1.active_meetings.lookup m
          = some { st with pause_requested := false } ∧
        ∀ k, k ≠ m → (resume_meeting sch m).1.active_meetings.lookup k
          = sch.active_meetings.lookup k) ∧
      ((stop_meeting sch m).2 = true ∧
        (stop_meeting sch m).1.active_meetings.lookup m
          = some { st with is_active := false } ∧
        ∀ k, k ≠ m → (stop_meeting sch m).1.active_meetings.lookup k
          = sch.active_meetings.lookup k)) := by
  constructor
  · intro hnone
    have h : (sch.active_meetings.lookup m).isSome = false := by
      simp [hnone]
    refine ⟨?_, ?_, ?_⟩ <;>
      simp [pause_meeting, resume_meeting, stop_meeting, h]
  · intro st hst
    have h : (sch.active_meetings.lookup m).isSome = true := by
      simp [hst]
    have hp := controlUpdate_spec sch m
      (fun st => { st with pause_requested := true }) st hst
    have hr := controlUpdate_spec sch m
      (fun st => { st with pause_requested := false }) st hst
    have hs := controlUpdate_spec sch m
      (fun st => { st with is_active := false }) st hst
    refine ⟨⟨?_, ?_, ?_⟩, ⟨?_, ?_, ?_⟩, ⟨?_, ?_, ?_⟩⟩
    · simp [pause_meeting, h]
    · simp only [pause_meeting, h, if_true]
      exact hp.1
    · intro k hk
      simp only [pause_meeting, h, if_true]
      exact hp.2 k hk
    · simp [resume_meeting, h]
    · simp only [resume_meeting, h, if_true]
      exact hr.1
    · intro k hk
      simp only [resume_meeting, h, if_true]
      exact hr.2 k hk
    · simp [stop_meeting, h]
    · simp only [stop_meeting, h, if_true]
      exact hs.1
    · intro k hk
      simp only [stop_meeting, h, if_true]
      exact hs.2 k hk

/-- The session state of the C10 witness. -/
def stW10 : SessionState := ⟨3, none, [1, 2], 5, 100, true, false⟩

/-- A scheduler with meetings 1 and 2 present, for the C10 witness. -/
def schW10 : MeetingSpeakingScheduler := ⟨[(1, stW10), (2, stW10)]⟩

/-- Witness for C10: at a concrete two-meeting scheduler, pausing,
resuming and stopping meeting 1 each succeed, flip exactly the one flag
of meeting 1's state, and leave meeting 2's entry unchanged. -/
theorem c10_witness :
    ((pause_meeting schW10 1).2 = true ∧
      (pause_meeting schW10 1).1.active_meetings.lookup 1
        = some { stW10 with pause_requested := true } ∧
      ∀ k, k ≠ 1 → (pause_meeting schW10 1).1.active_meetings.lookup k
        = schW10.active_meetings.lookup k) ∧
    ((resume_meeting schW10 1).2 = true ∧
      (resume_meeting schW10 1).1.active_meetings.lookup 1
        = some { stW10 with pause_requested := false } ∧
      ∀ k, k ≠ 1 → (resume_meeting schW10 1).1.active_meetings.lookup k
        = schW10.active_meetings.lookup k) ∧
    ((stop_meeting schW10 1).2 = true ∧
      (stop_meeting schW10 1).1.active_meetings.lookup 1
        = some { stW10 with is_active := false } ∧
      ∀ k, k ≠ 1 → (stop_meeting schW10 1).1.active_meetings.lookup k
        = schW10.active_meetings.lookup k) :=
  (c10_control_ops_frame schW10 1).2 stW10 rfl

end CrewAI
